import Mathlib

/-!
Verification development for the value-rendering engine (src/ui/render.ts)
and the import worker entry point (src/data-import/web-worker/import-entry.ts)
of the obsidian-dataview repository.

The DOM is modelled as a tree of nodes; the contents of a container is a NodeList.
Appending (appendText, createEl, appendChild) adds nodes at the end of a
child list of the container. Mutual inductives are used so that all recursions
are structural and every definition evaluates by rfl/decide.
-/

mutual
inductive Node where
  | text (s : String)
  | elem (tag : String) (cls : List String) (children : NodeList)
deriving DecidableEq
inductive NodeList where
  | nil
  | cons (hd : Node) (tl : NodeList)
deriving DecidableEq
end

def NodeList.one (n : Node) : NodeList := .cons n .nil

def NodeList.append : NodeList → NodeList → NodeList
  | .nil, ys => ys
  | .cons x xs, ys => .cons x (NodeList.append xs ys)

instance : Append NodeList := ⟨NodeList.append⟩

def NodeList.length : NodeList → Nat
  | .nil => 0
  | .cons _ xs => 1 + NodeList.length xs

theorem NodeList.append_def (xs ys : NodeList) : xs ++ ys = NodeList.append xs ys := rfl

@[simp] theorem NodeList.nil_append (ys : NodeList) : NodeList.nil ++ ys = ys := rfl

@[simp] theorem NodeList.cons_append (x : Node) (xs ys : NodeList) :
    NodeList.cons x xs ++ ys = NodeList.cons x (xs ++ ys) := rfl

@[simp] theorem NodeList.append_nil (xs : NodeList) : xs ++ NodeList.nil = xs :=
  match xs with
  | .nil => rfl
  | .cons x xs => by rw [NodeList.cons_append, NodeList.append_nil xs]

theorem NodeList.append_assoc (xs ys zs : NodeList) :
    (xs ++ ys) ++ zs = xs ++ (ys ++ zs) :=
  match xs with
  | .nil => rfl
  | .cons x xs => by
    rw [NodeList.cons_append, NodeList.cons_append, NodeList.cons_append,
      NodeList.append_assoc xs]

@[simp] theorem NodeList.length_append (xs ys : NodeList) :
    (xs ++ ys).length = xs.length + ys.length :=
  match xs with
  | .nil => by rw [NodeList.nil_append]; simp [NodeList.length]
  | .cons x xs => by
    rw [NodeList.cons_append]
    simp [NodeList.length, NodeList.length_append xs ys]
    omega

/-!
The value model (`Literal` in data-model/value.ts): a closed tagged union.
Dates, durations, HTML values and functions are opaque to the renderer
except through formatting collaborators, so they carry opaque identifiers.
A native array and a DataArray are rendered identically
(`Values.isArray(field) || DataArray.isDataArray(field)` selects one branch),
so both are represented by the single `array` variant.
The runtime representation of an object carries an optional constructor name
(`field?.constructor?.name`); `none` models a missing/undefined constructor.
`unknown` stands for a value matching none of the known predicates, carrying
its JSON.stringify dump.
-/

mutual
inductive Lit where
  | null
  | bool (b : Bool)
  | num (n : Int)
  | str (s : String)
  | date (d : Nat)
  | dur (d : Nat)
  | link (target : String) (display : Option String) (embedded : Bool)
  | html (h : Nat)
  | func (f : Nat)
  | array (xs : LitList)
  | obj (ctorName : Option String) (fields : FieldList)
  | unknown (dump : String)
deriving DecidableEq
inductive LitList where
  | nil
  | cons (hd : Lit) (tl : LitList)
deriving DecidableEq
inductive FieldList where
  | nil
  | cons (key : String) (val : Lit) (tl : FieldList)
deriving DecidableEq
end

def LitList.toList : LitList → List Lit
  | .nil => []
  | .cons x xs => x :: LitList.toList xs

def FieldList.vals : FieldList → List Lit
  | .nil => []
  | .cons _ v xs => v :: FieldList.vals xs

/-- The display mode flag of renderValue (`ValueRenderContext` in render.ts). -/
inductive ValueRenderContext where
  | root
  | list
deriving DecidableEq

/-- The slice of QuerySettings consumed by renderValue. -/
structure QuerySettings where
  maxRecursiveRenderDepth : Nat
  renderNullAs : String

/--
External collaborators of the renderer, fixed for one render invocation:
`compact` gives the child nodes that renderCompactMarkdown leaves inside the
span it creates for a given markdown text (MarkdownRenderer plus the
paragraph-stripping step, an external collaborator of renderValue modelled
separately below); `fmtDate`/`fmtDuration` are renderMinimalDate and
renderMinimalDuration (util/normalize, with settings and currentLocale
absorbed); `linkMd` is Link.markdown(); `numStr` is JavaScript
stringification of a number; `htmlNode` interprets an opaque HTML value as
the node that `container.appendChild(field)` attaches.
-/
structure RenderEnv where
  settings : QuerySettings
  compact : String → NodeList
  fmtDate : Nat → String
  fmtDuration : Nat → String
  linkMd : String → Option String → Bool → String
  numStr : Int → String
  htmlNode : Nat → Node

/-- The span created by renderCompactMarkdown (container.createSpan(), no classes). -/
def compactSpan (env : RenderEnv) (md : String) : Node :=
  Node.elem "span" [] (env.compact md)

/-- JavaScript `"" + field` for the string/boolean/number branch. -/
def litStr (env : RenderEnv) : Lit → String
  | .str s => s
  | .bool b => if b then "true" else "false"
  | .num n => env.numStr n
  | _ => ""

/-- The truthiness test `field?.constructor?.name && field?.constructor?.name != "Object"`. -/
def ctorGuard : Option String → Bool
  | none => false
  | some n => n ≠ "" && n ≠ "Object"

/-!
renderValue (render.ts, lines 107-198), translated in container-threaded
style: each function takes the current child list of the container it
appends into and returns the updated child list, mirroring statement order.
`renderArrayItems` is the expand-mode loop over array elements (one li per
element), `renderArrayInline` the comma-joined inline loop;
`renderObjItems`/`renderObjInline` are the object counterparts where each
entry is prefixed with `key + ": "`. Every recursive call passes the same
expandList, display context "list" and depth + 1, exactly as in the source.
-/

mutual
def renderValueSt (env : RenderEnv) (c : NodeList) (field : Lit) (expandList : Bool)
    (context : ValueRenderContext) (depth : Nat) : NodeList :=
  if depth > env.settings.maxRecursiveRenderDepth then
    c ++ NodeList.one (.text "...")
  else
    match field with
    | .null => c ++ NodeList.one (compactSpan env env.settings.renderNullAs)
    | .date d => c ++ NodeList.one (.text (env.fmtDate d))
    | .dur d => c ++ NodeList.one (.text (env.fmtDuration d))
    | .str s => c ++ NodeList.one (compactSpan env s)
    | .bool b => c ++ NodeList.one (compactSpan env (litStr env (.bool b)))
    | .num n => c ++ NodeList.one (compactSpan env (litStr env (.num n)))
    | .link t disp emb => c ++ NodeList.one (compactSpan env (env.linkMd t disp emb))
    | .html h => c ++ NodeList.one (env.htmlNode h)
    | .func _ => c ++ NodeList.one (.text "<function>")
    | .array xs =>
      if expandList then
        c ++ NodeList.one (.elem "ul"
          ["dataview", "dataview-ul",
            if context = ValueRenderContext.list then "dataview-result-list-ul"
            else "dataview-result-list-root-ul"]
          (renderArrayItems env .nil xs expandList depth))
      else
        match xs with
        | .nil => c ++ NodeList.one (.text "<empty list>")
        | .cons y ys => c ++ NodeList.one (.elem "span"
            ["dataview", "dataview-result-list-span"]
            (renderArrayInline env .nil true (.cons y ys) expandList depth))
    | .obj ctor fields =>
      if ctorGuard ctor then
        c ++ NodeList.one (.text ("<" ++ (ctor.getD "") ++ ">"))
      else if expandList then
        c ++ NodeList.one (.elem "ul" ["dataview", "dataview-ul", "dataview-result-object-ul"]
          (renderObjItems env .nil fields expandList depth))
      else
        match fields with
        | .nil => c ++ NodeList.one (.text "<empty object>")
        | .cons k v fs => c ++ NodeList.one (.elem "span"
            ["dataview", "dataview-result-object-span"]
            (renderObjInline env .nil true (.cons k v fs) expandList depth))
    | .unknown s => c ++ NodeList.one (.text ("Unrecognized: " ++ s))
def renderArrayItems (env : RenderEnv) (acc : NodeList) (xs : LitList) (expandList : Bool)
    (depth : Nat) : NodeList :=
  match xs with
  | .nil => acc
  | .cons x rest =>
    let li := Node.elem "li" ["dataview-result-list-li"]
      (renderValueSt env .nil x expandList .list (depth + 1))
    renderArrayItems env (acc ++ NodeList.one li) rest expandList depth
def renderArrayInline (env : RenderEnv) (acc : NodeList) (first : Bool) (xs : LitList)
    (expandList : Bool) (depth : Nat) : NodeList :=
  match xs with
  | .nil => acc
  | .cons x rest =>
    let acc1 := if first then acc else acc ++ NodeList.one (.text ", ")
    renderArrayInline env (renderValueSt env acc1 x expandList .list (depth + 1)) false rest
      expandList depth
def renderObjItems (env : RenderEnv) (acc : NodeList) (fs : FieldList) (expandList : Bool)
    (depth : Nat) : NodeList :=
  match fs with
  | .nil => acc
  | .cons k v rest =>
    let li := Node.elem "li" ["dataview", "dataview-li", "dataview-result-object-li"]
      (renderValueSt env (NodeList.one (.text (k ++ ": "))) v expandList .list (depth + 1))
    renderObjItems env (acc ++ NodeList.one li) rest expandList depth
def renderObjInline (env : RenderEnv) (acc : NodeList) (first : Bool) (fs : FieldList)
    (expandList : Bool) (depth : Nat) : NodeList :=
  match fs with
  | .nil => acc
  | .cons k v rest =>
    let acc1 := if first then acc else acc ++ NodeList.one (.text ", ")
    let acc2 := acc1 ++ NodeList.one (.text (k ++ ": "))
    renderObjInline env (renderValueSt env acc2 v expandList .list (depth + 1)) false rest
      expandList depth
end

/-!
Instrumentation of the recursive call sites of renderValue: `subcalls` lists, for
one invocation, the argument tuples (value, expandList, context, depth) of
every direct recursive renderValue call it performs, read off the loops in
the array and object branches (all other branches, the depth-guard return,
the empty-inline returns and the foreign-object return make none).
-/
def subcalls (env : RenderEnv) (field : Lit) (expandList : Bool)
    (context : ValueRenderContext) (depth : Nat) :
    List (Lit × Bool × ValueRenderContext × Nat) :=
  if depth > env.settings.maxRecursiveRenderDepth then []
  else
    match field with
    | .array xs =>
      if expandList then
        xs.toList.map (fun x => (x, expandList, ValueRenderContext.list, depth + 1))
      else
        match xs with
        | .nil => []
        | .cons y ys =>
          (LitList.cons y ys).toList.map
            (fun x => (x, expandList, ValueRenderContext.list, depth + 1))
    | .obj ctor fields =>
      if ctorGuard ctor then []
      else if expandList then
        fields.vals.map (fun v => (v, expandList, ValueRenderContext.list, depth + 1))
      else
        match fields with
        | .nil => []
        | .cons k v fs =>
          (FieldList.cons k v fs).vals.map
            (fun v => (v, expandList, ValueRenderContext.list, depth + 1))
    | _ => []

/-!
Timed semantics: renderValue is async and awaits every leaf render through
renderCompactMarkdown and every recursive call before moving on. The timed
interpreter threads a clock: a leaf markdown render for text `s` suspends
for `dur s` ticks (date/duration/html/function branches and plain
appendText calls are synchronous). Because each await completes before the
next sibling starts, the clock threads left to right through the loops,
mirroring the structure of renderValueSt exactly.
-/
mutual
def renderValueT (env : RenderEnv) (dur : String → Nat) (c : NodeList) (field : Lit)
    (expandList : Bool) (context : ValueRenderContext) (depth : Nat) (t : Nat) :
    NodeList × Nat :=
  if depth > env.settings.maxRecursiveRenderDepth then
    (c ++ NodeList.one (.text "..."), t)
  else
    match field with
    | .null => (c ++ NodeList.one (compactSpan env env.settings.renderNullAs),
        t + dur env.settings.renderNullAs)
    | .date d => (c ++ NodeList.one (.text (env.fmtDate d)), t)
    | .dur d => (c ++ NodeList.one (.text (env.fmtDuration d)), t)
    | .str s => (c ++ NodeList.one (compactSpan env s), t + dur s)
    | .bool b => (c ++ NodeList.one (compactSpan env (litStr env (.bool b))),
        t + dur (litStr env (.bool b)))
    | .num n => (c ++ NodeList.one (compactSpan env (litStr env (.num n))),
        t + dur (litStr env (.num n)))
    | .link tg disp emb => (c ++ NodeList.one (compactSpan env (env.linkMd tg disp emb)),
        t + dur (env.linkMd tg disp emb))
    | .html h => (c ++ NodeList.one (env.htmlNode h), t)
    | .func _ => (c ++ NodeList.one (.text "<function>"), t)
    | .array xs =>
      if expandList then
        let res := renderArrayItemsT env dur .nil xs expandList depth t
        (c ++ NodeList.one (.elem "ul"
          ["dataview", "dataview-ul",
            if context = ValueRenderContext.list then "dataview-result-list-ul"
            else "dataview-result-list-root-ul"] res.1), res.2)
      else
        match xs with
        | .nil => (c ++ NodeList.one (.text "<empty list>"), t)
        | .cons y ys =>
          let res := renderArrayInlineT env dur .nil true (.cons y ys) expandList depth t
          (c ++ NodeList.one (.elem "span" ["dataview", "dataview-result-list-span"] res.1),
            res.2)
    | .obj ctor fields =>
      if ctorGuard ctor then
        (c ++ NodeList.one (.text ("<" ++ (ctor.getD "") ++ ">")), t)
      else if expandList then
        let res := renderObjItemsT env dur .nil fields expandList depth t
        (c ++ NodeList.one (.elem "ul" ["dataview", "dataview-ul", "dataview-result-object-ul"]
          res.1), res.2)
      else
        match fields with
        | .nil => (c ++ NodeList.one (.text "<empty object>"), t)
        | .cons k v fs =>
          let res := renderObjInlineT env dur .nil true (.cons k v fs) expandList depth t
          (c ++ NodeList.one (.elem "span" ["dataview", "dataview-result-object-span"] res.1),
            res.2)
    | .unknown s => (c ++ NodeList.one (.text ("Unrecognized: " ++ s)), t)
def renderArrayItemsT (env : RenderEnv) (dur : String → Nat) (acc : NodeList) (xs : LitList)
    (expandList : Bool) (depth : Nat) (t : Nat) : NodeList × Nat :=
  match xs with
  | .nil => (acc, t)
  | .cons x rest =>
    let res := renderValueT env dur .nil x expandList .list (depth + 1) t
    let li := Node.elem "li" ["dataview-result-list-li"] res.1
    renderArrayItemsT env dur (acc ++ NodeList.one li) rest expandList depth res.2
def renderArrayInlineT (env : RenderEnv) (dur : String → Nat) (acc : NodeList) (first : Bool)
    (xs : LitList) (expandList : Bool) (depth : Nat) (t : Nat) : NodeList × Nat :=
  match xs with
  | .nil => (acc, t)
  | .cons x rest =>
    let acc1 := if first then acc else acc ++ NodeList.one (.text ", ")
    let res := renderValueT env dur acc1 x expandList .list (depth + 1) t
    renderArrayInlineT env dur res.1 false rest expandList depth res.2
def renderObjItemsT (env : RenderEnv) (dur : String → Nat) (acc : NodeList) (fs : FieldList)
    (expandList : Bool) (depth : Nat) (t : Nat) : NodeList × Nat :=
  match fs with
  | .nil => (acc, t)
  | .cons k v rest =>
    let res := renderValueT env dur (NodeList.one (.text (k ++ ": "))) v expandList .list
      (depth + 1) t
    let li := Node.elem "li" ["dataview", "dataview-li", "dataview-result-object-li"] res.1
    renderObjItemsT env dur (acc ++ NodeList.one li) rest expandList depth res.2
def renderObjInlineT (env : RenderEnv) (dur : String → Nat) (acc : NodeList) (first : Bool)
    (fs : FieldList) (expandList : Bool) (depth : Nat) (t : Nat) : NodeList × Nat :=
  match fs with
  | .nil => (acc, t)
  | .cons k v rest =>
    let acc1 := if first then acc else acc ++ NodeList.one (.text ", ")
    let acc2 := acc1 ++ NodeList.one (.text (k ++ ": "))
    let res := renderValueT env dur acc2 v expandList .list (depth + 1) t
    renderObjInlineT env dur res.1 false rest expandList depth res.2
end

/-!
DOM model for renderCompactMarkdown (render.ts, lines 22-38). After
MarkdownRenderer.renderMarkdown has filled the created span with child
nodes `kids`, the source runs:
  let paragraph = subcontainer.querySelector("p");
  if (subcontainer.children.length == 1 && paragraph) then move every
  child node of paragraph to the end of subcontainer and remove paragraph
  from subcontainer.
`children.length` counts element children only (DOM `children`), while
querySelector("p") returns the first p element among all descendants in
document order — which need not be the single element child.
`removeChild` throws a NotFoundError when its argument is not a direct
child, so the model returns an Option, `none` standing for the thrown
exception (a rejected promise).
-/

/-- Count of element (non-text) children, DOM `children.length`. -/
def NodeList.elemCount : NodeList → Nat
  | .nil => 0
  | .cons (.text _) xs => NodeList.elemCount xs
  | .cons (.elem _ _ _) xs => 1 + NodeList.elemCount xs

mutual
/-- Path (child indices) of the first p element inside this node, in document order. -/
def Node.findP : Node → Option (List Nat)
  | .text _ => none
  | .elem tag _ ch => if tag = "p" then some [] else NodeList.findPFrom ch 0
/-- Path of the first p element among these siblings (starting at index i) and their descendants. -/
def NodeList.findPFrom : NodeList → Nat → Option (List Nat)
  | .nil, _ => none
  | .cons x xs, i =>
    match Node.findP x with
    | some p => some (i :: p)
    | none => NodeList.findPFrom xs (i + 1)
end

def NodeList.get? : NodeList → Nat → Option Node
  | .nil, _ => none
  | .cons x _, 0 => some x
  | .cons _ xs, i + 1 => NodeList.get? xs i

/-- The node addressed by a path of child indices. -/
def getAtPath (l : NodeList) : List Nat → Option Node
  | [] => none
  | i :: p =>
    match l.get? i with
    | none => none
    | some n =>
      match p with
      | [] => some n
      | _ :: _ =>
        match n with
        | .text _ => none
        | .elem _ _ ch => getAtPath ch p

def NodeList.modifyAt : NodeList → Nat → (Node → Node) → NodeList
  | .nil, _, _ => .nil
  | .cons x xs, 0, f => .cons (f x) xs
  | .cons x xs, i + 1, f => .cons x (NodeList.modifyAt xs i f)

/-- Empty the child list of the node addressed by the path (the state of the
paragraph after each of its children has been moved out). -/
def clearAtPath (l : NodeList) : List Nat → NodeList
  | [] => l
  | i :: p =>
    l.modifyAt i (fun n =>
      match n with
      | .text s => .text s
      | .elem tag cls ch =>
        match p with
        | [] => .elem tag cls .nil
        | _ :: _ => .elem tag cls (clearAtPath ch p))

def NodeList.eraseIdx : NodeList → Nat → NodeList
  | .nil, _ => .nil
  | .cons _ xs, 0 => xs
  | .cons x xs, i + 1 => .cons x (NodeList.eraseIdx xs i)

def Node.childNodes : Node → NodeList
  | .text _ => .nil
  | .elem _ _ ch => ch

/-- The post-processing renderCompactMarkdown applies to the span contents
`kids` left by MarkdownRenderer.renderMarkdown; `none` models the thrown
NotFoundError of removeChild. -/
def renderCompactStep (kids : NodeList) : Option NodeList :=
  match NodeList.findPFrom kids 0 with
  | none => some kids
  | some path =>
    if kids.elemCount = 1 then
      match getAtPath kids path with
      | none => none
      | some paragraph =>
        let moved := clearAtPath kids path ++ paragraph.childNodes
        match path with
        | [i] => some (moved.eraseIdx i)
        | _ => none
    else some kids

/-- renderCompactMarkdown in full: a span is created in the container,
MarkdownRenderer fills it with `rendered`, then the stripping step runs. -/
def renderCompactMarkdown (container : NodeList) (rendered : NodeList) : Option NodeList :=
  (renderCompactStep rendered).map
    (fun kids => container ++ NodeList.one (.elem "span" [] kids))

/-!
Import worker entry point (src/data-import/web-worker/import-entry.ts).
The job and result message shapes follow section 6 of the spec; the
metadata, parsed-value and transfer-encoding types are opaque to the entry
point and are type parameters here. `transferable` stands for
Transferable.transferable (data-model/transferable.ts, not under src/),
kept abstract as a function argument.
-/

/-- An import job message { path, contents, metadata }. -/
structure ImportJob (M : Type) where
  path : String
  contents : String
  metadata : M
deriving DecidableEq

/-- An import result message { path, result }. -/
structure ImportResult (E : Type) where
  path : String
  result : E
deriving DecidableEq

/-- Outcome of one parse: a parsed value or a typed parse failure. -/
inductive ParseOutcome (V : Type) where
  | success (v : V)
  | failure (err : String)
deriving DecidableEq

/-- Modelled from the spec: runImport (data-import/web-worker/import-impl.ts,
which is not under src/) runs the parse routine for one document and, per
sections 4.3 and 7, an uncaught error raised during the parse is caught at
the context boundary and converted into a typed failure carried in place of
a successful value; the parse routine itself is the `parse` argument, its
raising of an error modelled by Except.error. -/
def runImport {V M : Type} (parse : String → String → M → Except String V)
    (path contents : String) (meta : M) : ParseOutcome V :=
  match parse path contents meta with
  | .ok v => .success v
  | .error e => .failure e

/-- The global onmessage handler: posts { path: evt.data.path, result:
Transferable.transferable(runImport(path, contents, metadata)) }; the
returned list is the sequence of messages posted for this event. -/
def onmessage {V M E : Type} (parse : String → String → M → Except String V)
    (transferable : ParseOutcome V → E) (evt : ImportJob M) : List (ImportResult E) :=
  [{ path := evt.path, result := transferable (runImport parse evt.path evt.contents evt.metadata) }]

/-! Concrete instances used by witnesses and counterexamples. -/

/-- A concrete render environment with recursion depth limit `k`. -/
def sampleEnv (k : Nat) : RenderEnv :=
  { settings := { maxRecursiveRenderDepth := k, renderNullAs := "\\-" }
    compact := fun s => NodeList.one (.text s)
    fmtDate := fun d => "date:" ++ toString d
    fmtDuration := fun d => "duration:" ++ toString d
    linkMd := fun t disp _ =>
      "[[" ++ t ++ (match disp with | some d => "|" ++ d | none => "") ++ "]]"
    numStr := fun n => toString n
    htmlNode := fun h => Node.elem "div" [] (NodeList.one (.text (toString h))) }

/-! Helper lemmas about the rendering functions. -/

@[simp] theorem NodeList.one_append (x : Node) (ys : NodeList) :
    NodeList.one x ++ ys = NodeList.cons x ys := rfl

@[simp] theorem NodeList.length_one (n : Node) : (NodeList.one n).length = 1 := rfl

/-- With the depth bound exceeded, renderValue appends the truncation
placeholder and returns at once, whatever the value and mode. -/
theorem renderValueSt_guard (env : RenderEnv) (c : NodeList) (f : Lit) (e : Bool)
    (ctx : ValueRenderContext) (d : Nat) (h : d > env.settings.maxRecursiveRenderDepth) :
    renderValueSt env c f e ctx d = c ++ NodeList.one (.text "...") := by
  rw [renderValueSt.eq_def]; simp [h]

/-- renderValue only ever appends: its result is the prior container
contents followed by what a render into an empty container produces. -/
theorem renderValueSt_frame (env : RenderEnv) (c : NodeList) (f : Lit) (e : Bool)
    (ctx : ValueRenderContext) (d : Nat) :
    renderValueSt env c f e ctx d = c ++ renderValueSt env .nil f e ctx d := by
  by_cases h : d > env.settings.maxRecursiveRenderDepth
  · rw [renderValueSt_guard env c f e ctx d h, renderValueSt_guard env .nil f e ctx d h]
    simp
  · rw [renderValueSt.eq_def]
    conv_rhs => rw [renderValueSt.eq_def]
    simp only [if_neg h]
    cases f <;> try simp
    next xs => cases e <;> cases xs <;> simp
    next ctor fs => by_cases hg : ctorGuard ctor <;> cases e <;> cases fs <;> simp [hg]

/-- Tail of a comma join: each further element preceded by ", ". -/
def commaTail (f : Lit → NodeList) : List Lit → NodeList
  | [] => .nil
  | x :: rest => NodeList.one (.text ", ") ++ (f x ++ commaTail f rest)

/-- Comma-joined inline rendering of a sequence, in input order. -/
def commaJoin (f : Lit → NodeList) : List Lit → NodeList
  | [] => .nil
  | x :: rest => f x ++ commaTail f rest

def NodeList.ofList : List Node → NodeList
  | [] => .nil
  | x :: xs => .cons x (NodeList.ofList xs)

theorem renderArrayInline_false_eq (env : RenderEnv) (acc : NodeList) (xs : LitList)
    (e : Bool) (d : Nat) :
    renderArrayInline env acc false xs e d =
      acc ++ commaTail (fun x => renderValueSt env .nil x e .list (d + 1)) xs.toList :=
  match xs with
  | .nil => by simp [renderArrayInline, LitList.toList, commaTail]
  | .cons x rest => by
    rw [renderArrayInline.eq_def]
    simp only [LitList.toList, commaTail]
    rw [renderArrayInline_false_eq env _ rest e d, if_neg (by simp),
      renderValueSt_frame env (acc ++ NodeList.one (.text ", ")) x e .list (d + 1)]
    simp [NodeList.append_assoc]

theorem renderArrayInline_true_eq (env : RenderEnv) (acc : NodeList) (xs : LitList)
    (e : Bool) (d : Nat) :
    renderArrayInline env acc true xs e d =
      acc ++ commaJoin (fun x => renderValueSt env .nil x e .list (d + 1)) xs.toList :=
  match xs with
  | .nil => by simp [renderArrayInline, LitList.toList, commaJoin]
  | .cons x rest => by
    rw [renderArrayInline.eq_def]
    simp only [LitList.toList, commaJoin, if_pos]
    rw [renderArrayInline_false_eq env _ rest e d,
      renderValueSt_frame env acc x e .list (d + 1)]
    simp [NodeList.append_assoc]

/-- Expand-mode list items: one li per element, in input order. -/
theorem renderArrayItems_eq (env : RenderEnv) (acc : NodeList) (xs : LitList)
    (e : Bool) (d : Nat) :
    renderArrayItems env acc xs e d =
      acc ++ NodeList.ofList (xs.toList.map (fun x =>
        Node.elem "li" ["dataview-result-list-li"] (renderValueSt env .nil x e .list (d + 1)))) :=
  match xs with
  | .nil => by simp [renderArrayItems, LitList.toList, NodeList.ofList]
  | .cons x rest => by
    rw [renderArrayItems.eq_def]
    simp only [LitList.toList, List.map, NodeList.ofList]
    rw [renderArrayItems_eq env _ rest e d]
    simp [NodeList.append_assoc]

/-- The object inline loop also only appends to its accumulator. -/
theorem renderObjInline_frame (env : RenderEnv) (acc : NodeList) (first : Bool)
    (fs : FieldList) (e : Bool) (d : Nat) :
    renderObjInline env acc first fs e d = acc ++ renderObjInline env .nil first fs e d :=
  match fs with
  | .nil => by simp [renderObjInline]
  | .cons k v rest => by
    rw [renderObjInline.eq_def]
    conv_rhs => rw [renderObjInline.eq_def]
    simp only
    rw [renderObjInline_frame env (renderValueSt env _ v e .list (d + 1)) false rest e d]
    conv_rhs => rw [renderObjInline_frame env (renderValueSt env _ v e .list (d + 1)) false rest e d]
    rw [renderValueSt_frame env ((if first then acc else acc ++ NodeList.one (.text ", ")) ++
        NodeList.one (.text (k ++ ": "))) v e .list (d + 1)]
    conv_rhs => rw [renderValueSt_frame env ((if first then NodeList.nil
      else NodeList.nil ++ NodeList.one (.text ", ")) ++ NodeList.one (.text (k ++ ": "))) v e .list (d + 1)]
    cases first <;> simp [NodeList.append_assoc]

mutual
theorem renderValueT_fst (env : RenderEnv) (dur : String → Nat) (c : NodeList) (f : Lit)
    (e : Bool) (ctx : ValueRenderContext) (d : Nat) (t : Nat) :
    (renderValueT env dur c f e ctx d t).1 = renderValueSt env c f e ctx d := by
  by_cases h : d > env.settings.maxRecursiveRenderDepth
  · rw [renderValueT.eq_def, renderValueSt.eq_def]; simp [h]
  · rw [renderValueT.eq_def, renderValueSt.eq_def]
    simp only [if_neg h]
    cases f <;> try simp
    next xs =>
      cases e
      · cases xs
        · simp
        next y ys =>
          simp only [Bool.false_eq_true, if_false]
          rw [renderArrayInlineT_fst env dur .nil true (.cons y ys) false d t]
      · simp only [if_true]
        rw [renderArrayItemsT_fst env dur .nil xs true d t]
    next ctor fs =>
      by_cases hg : ctorGuard ctor
      · simp [hg]
      · cases e
        · cases fs
          · simp [hg]
          next k v rest =>
            simp only [hg, Bool.false_eq_true, if_false]
            rw [renderObjInlineT_fst env dur .nil true (.cons k v rest) false d t]
        · simp only [hg, Bool.false_eq_true, if_false, if_true]
          rw [renderObjItemsT_fst env dur .nil fs true d t]
theorem renderArrayItemsT_fst (env : RenderEnv) (dur : String → Nat) (acc : NodeList)
    (xs : LitList) (e : Bool) (d : Nat) (t : Nat) :
    (renderArrayItemsT env dur acc xs e d t).1 = renderArrayItems env acc xs e d := by
  cases xs with
  | nil => simp [renderArrayItemsT, renderArrayItems]
  | cons x rest =>
    rw [renderArrayItemsT.eq_def, renderArrayItems.eq_def]
    simp only
    rw [renderValueT_fst env dur .nil x e .list (d + 1) t]
    exact renderArrayItemsT_fst env dur _ rest e d _
theorem renderArrayInlineT_fst (env : RenderEnv) (dur : String → Nat) (acc : NodeList)
    (first : Bool) (xs : LitList) (e : Bool) (d : Nat) (t : Nat) :
    (renderArrayInlineT env dur acc first xs e d t).1 = renderArrayInline env acc first xs e d := by
  cases xs with
  | nil => simp [renderArrayInlineT, renderArrayInline]
  | cons x rest =>
    rw [renderArrayInlineT.eq_def, renderArrayInline.eq_def]
    simp only
    rw [renderValueT_fst env dur _ x e .list (d + 1) t]
    exact renderArrayInlineT_fst env dur _ false rest e d _
theorem renderObjItemsT_fst (env : RenderEnv) (dur : String → Nat) (acc : NodeList)
    (fs : FieldList) (e : Bool) (d : Nat) (t : Nat) :
    (renderObjItemsT env dur acc fs e d t).1 = renderObjItems env acc fs e d := by
  cases fs with
  | nil => simp [renderObjItemsT, renderObjItems]
  | cons k v rest =>
    rw [renderObjItemsT.eq_def, renderObjItems.eq_def]
    simp only
    rw [renderValueT_fst env dur _ v e .list (d + 1) t]
    exact renderObjItemsT_fst env dur _ rest e d _
theorem renderObjInlineT_fst (env : RenderEnv) (dur : String → Nat) (acc : NodeList)
    (first : Bool) (fs : FieldList) (e : Bool) (d : Nat) (t : Nat) :
    (renderObjInlineT env dur acc first fs e d t).1 = renderObjInline env acc first fs e d := by
  cases fs with
  | nil => simp [renderObjInlineT, renderObjInline]
  | cons k v rest =>
    rw [renderObjInlineT.eq_def, renderObjInline.eq_def]
    simp only
    rw [renderValueT_fst env dur _ v e .list (d + 1) t]
    exact renderObjInlineT_fst env dur _ false rest e d _
end

/-! Truncation of deeply nested arrays. -/

mutual
/-- Whether a node contains the truncation placeholder text "...". -/
def Node.hasTrunc : Node → Bool
  | .text s => s = "..."
  | .elem _ _ ch => NodeList.hasTrunc ch
def NodeList.hasTrunc : NodeList → Bool
  | .nil => false
  | .cons x xs => Node.hasTrunc x || NodeList.hasTrunc xs
end

/-- A singleton array nested n levels deep around a number. -/
def nestArr : Nat → Lit
  | 0 => .num 0
  | n + 1 => .array (.cons (nestArr n) .nil)

theorem nestArr_hasTrunc (env : RenderEnv) (e : Bool) :
    ∀ (n d : Nat) (ctx : ValueRenderContext),
      env.settings.maxRecursiveRenderDepth < d + n →
      NodeList.hasTrunc (renderValueSt env .nil (nestArr n) e ctx d) = true := by
  intro n
  induction n with
  | zero =>
    intro d ctx hn
    have h : d > env.settings.maxRecursiveRenderDepth := by omega
    rw [renderValueSt_guard env .nil (nestArr 0) e ctx d h]
    simp [NodeList.hasTrunc, Node.hasTrunc]
  | succ m ih =>
    intro d ctx hn
    by_cases h : d > env.settings.maxRecursiveRenderDepth
    · rw [renderValueSt_guard env .nil (nestArr (m + 1)) e ctx d h]
      simp [NodeList.hasTrunc, Node.hasTrunc]
    · rw [nestArr, renderValueSt.eq_def]
      simp only [if_neg h]
      cases e
      · simp only [Bool.false_eq_true, if_false]
        rw [renderArrayInline_true_eq env .nil (.cons (nestArr m) .nil) false d]
        simp [NodeList.hasTrunc, Node.hasTrunc, LitList.toList, commaJoin, commaTail]
        exact ih (d + 1) .list (by omega)
      · simp only [if_true]
        rw [renderArrayItems_eq env .nil (.cons (nestArr m) .nil) true d]
        simp [NodeList.hasTrunc, Node.hasTrunc, LitList.toList, NodeList.ofList]
        exact ih (d + 1) .list (by omega)

/-! Helper lemmas for the renderCompactMarkdown stripping step. -/

theorem NodeList.get_some_lt (xs : NodeList) (i : Nat) (n : Node)
    (h : xs.get? i = some n) : i < xs.length :=
  match xs, i with
  | .nil, i => by simp [NodeList.get?] at h
  | .cons x xs, 0 => by simp [NodeList.length]
  | .cons x xs, j + 1 => by
    have := NodeList.get_some_lt xs j n (by simpa [NodeList.get?] using h)
    simp [NodeList.length]; omega

theorem NodeList.eraseIdx_modifyAt (xs : NodeList) (i : Nat) (f : Node → Node) :
    (xs.modifyAt i f).eraseIdx i = xs.eraseIdx i :=
  match xs, i with
  | .nil, _ => rfl
  | .cons x xs, 0 => rfl
  | .cons x xs, j + 1 => by
    simp [NodeList.modifyAt, NodeList.eraseIdx, NodeList.eraseIdx_modifyAt xs j f]

theorem NodeList.length_modifyAt (xs : NodeList) (i : Nat) (f : Node → Node) :
    (xs.modifyAt i f).length = xs.length :=
  match xs, i with
  | .nil, _ => rfl
  | .cons x xs, 0 => rfl
  | .cons x xs, j + 1 => by
    simp [NodeList.modifyAt, NodeList.length, NodeList.length_modifyAt xs j f]

theorem NodeList.eraseIdx_append (xs ys : NodeList) (i : Nat) (h : i < xs.length) :
    (xs ++ ys).eraseIdx i = xs.eraseIdx i ++ ys :=
  match xs, i with
  | .nil, i => by simp [NodeList.length] at h
  | .cons x xs, 0 => by
    simp [NodeList.eraseIdx, NodeList.append_def, NodeList.append]
  | .cons x xs, j + 1 => by
    have hj : j < xs.length := by simp [NodeList.length] at h; omega
    have ih := NodeList.eraseIdx_append xs ys j hj
    simp only [NodeList.append_def, NodeList.append, NodeList.eraseIdx] at ih ⊢
    rw [ih]

theorem renderCompactStep_direct_p (kids : NodeList) (i : Nat) (cls : List String) (ch : NodeList)
    (hc : kids.elemCount = 1) (hf : NodeList.findPFrom kids 0 = some [i])
    (hg : kids.get? i = some (.elem "p" cls ch)) :
    renderCompactStep kids = some (kids.eraseIdx i ++ ch) := by
  unfold renderCompactStep
  rw [hf]
  simp only [hc, if_pos]
  have hgp : getAtPath kids [i] = some (.elem "p" cls ch) := by
    simp [getAtPath, hg]
  rw [hgp]
  simp only [Node.childNodes]
  have hi : i < kids.length := NodeList.get_some_lt kids i _ hg
  have hlen : i < (clearAtPath kids [i]).length := by
    unfold clearAtPath
    rw [NodeList.length_modifyAt]; exact hi
  rw [NodeList.eraseIdx_append _ ch i hlen]
  unfold clearAtPath
  rw [NodeList.eraseIdx_modifyAt]

theorem renderCompactStep_no_p (kids : NodeList) (hf : NodeList.findPFrom kids 0 = none) :
    renderCompactStep kids = some kids := by
  unfold renderCompactStep
  rw [hf]

theorem renderCompactStep_count_ne_one (kids : NodeList) (hc : kids.elemCount ≠ 1) :
    renderCompactStep kids = some kids := by
  unfold renderCompactStep
  cases hfp : NodeList.findPFrom kids 0 with
  | none => rfl
  | some path => simp [hc]

theorem renderCompactStep_nested_p (kids : NodeList) (i j : Nat) (p : List Nat)
    (hc : kids.elemCount = 1) (hf : NodeList.findPFrom kids 0 = some (i :: j :: p)) :
    renderCompactStep kids = none := by
  unfold renderCompactStep
  rw [hf]
  simp only [hc, if_pos]
  cases getAtPath kids (i :: j :: p) <;> rfl

/-- The array inline loop also only appends to its accumulator. -/
theorem renderArrayInline_frame (env : RenderEnv) (acc : NodeList) (first : Bool)
    (xs : LitList) (e : Bool) (d : Nat) :
    renderArrayInline env acc first xs e d = acc ++ renderArrayInline env .nil first xs e d := by
  cases first
  · rw [renderArrayInline_false_eq env acc xs e d, renderArrayInline_false_eq env .nil xs e d]
    simp [NodeList.append_assoc]
  · rw [renderArrayInline_true_eq env acc xs e d, renderArrayInline_true_eq env .nil xs e d]
    simp [NodeList.append_assoc]

/-! Claim theorems. -/

/-- Claim C1, counterexample: rendering an empty Array in expand-list mode
does NOT produce the `<empty list>` placeholder; it creates an (empty) ul
list container element. -/
theorem claimC1_counterexample :
    renderValueSt (sampleEnv 3) .nil (.array .nil) true .root 0 =
      NodeList.one (.elem "ul" ["dataview", "dataview-ul", "dataview-result-list-root-ul"] .nil) ∧
    renderValueSt (sampleEnv 3) .nil (.array .nil) true .root 0 ≠
      NodeList.one (.text "<empty list>") :=
  ⟨rfl, by decide⟩

/-- Claim C1, amended: within the depth bound, an empty Array renders as
exactly the `<empty list>` placeholder with no container element only in
inline (non-expand) mode; in expand-list mode an empty ul list element is
created instead, with no items and no placeholder. -/
theorem claimC1_amended (env : RenderEnv) (c : NodeList) (ctx : ValueRenderContext) (d : Nat)
    (h : d ≤ env.settings.maxRecursiveRenderDepth) :
    renderValueSt env c (.array .nil) false ctx d = c ++ NodeList.one (.text "<empty list>") ∧
    renderValueSt env c (.array .nil) true ctx d = c ++ NodeList.one (.elem "ul"
      ["dataview", "dataview-ul",
        if ctx = ValueRenderContext.list then "dataview-result-list-ul"
        else "dataview-result-list-root-ul"] .nil) := by
  have hn : ¬ d > env.settings.maxRecursiveRenderDepth := by omega
  constructor
  · rw [renderValueSt.eq_def]; simp [hn]
  · rw [renderValueSt.eq_def]; simp [hn, renderArrayItems]

/-- Witness for the amended theorem of claim C1 at a concrete input. -/
theorem claimC1_witness :
    renderValueSt (sampleEnv 3) .nil (.array .nil) false .root 0 =
      NodeList.nil ++ NodeList.one (.text "<empty list>") ∧
    renderValueSt (sampleEnv 3) .nil (.array .nil) true .root 0 =
      NodeList.nil ++ NodeList.one (.elem "ul"
        ["dataview", "dataview-ul",
          if ValueRenderContext.root = ValueRenderContext.list then "dataview-result-list-ul"
          else "dataview-result-list-root-ul"] .nil) :=
  claimC1_amended (sampleEnv 3) .nil .root 0 (by decide)

/-- Claim C2: for every input job message the worker entry point sends
exactly one response message, and when the parse routine raises an error
that error is caught and a typed failure result is sent in place of a
successful value. -/
theorem claimC2 : ∀ (V M E : Type) (parse : String → String → M → Except String V)
    (transferable : ParseOutcome V → E) (evt : ImportJob M) (e : String),
    parse evt.path evt.contents evt.metadata = Except.error e →
    onmessage parse transferable evt =
      [{ path := evt.path, result := transferable (.failure e) }] ∧
    (onmessage parse transferable evt).length = 1 := by
  intro V M E parse tr evt e he
  refine ⟨?_, rfl⟩
  unfold onmessage runImport
  rw [he]

/-- Witness for claim C2 at a concrete failing parse. -/
theorem claimC2_witness :
    onmessage (fun _ _ (_ : Nat) => (Except.error "boom" : Except String Nat)) id
        { path := "a.md", contents := "txt", metadata := 0 } =
      [{ path := "a.md", result := ParseOutcome.failure "boom" }] ∧
    (onmessage (fun _ _ (_ : Nat) => (Except.error "boom" : Except String Nat)) id
        { path := "a.md", contents := "txt", metadata := 0 }).length = 1 :=
  claimC2 Nat Nat (ParseOutcome Nat) (fun _ _ _ => Except.error "boom") id
    { path := "a.md", contents := "txt", metadata := 0 } "boom" rfl

/-- Claim C3: whenever the depth argument exceeds the configured maximum,
renderValue appends the truncation placeholder and returns without
dispatching on the value (no recursive calls); consequently a singleton
array nested deeper than the maximum renders with a truncation placeholder
inside. -/
theorem claimC3 :
    (∀ (env : RenderEnv) (c : NodeList) (f : Lit) (e : Bool) (ctx : ValueRenderContext)
      (d : Nat), d > env.settings.maxRecursiveRenderDepth →
      renderValueSt env c f e ctx d = c ++ NodeList.one (.text "...") ∧
      subcalls env f e ctx d = []) ∧
    (∀ (env : RenderEnv) (e : Bool) (ctx : ValueRenderContext) (D : Nat),
      env.settings.maxRecursiveRenderDepth < D →
      NodeList.hasTrunc (renderValueSt env .nil (nestArr D) e ctx 0) = true) := by
  constructor
  · intro env c f e ctx d h
    refine ⟨renderValueSt_guard env c f e ctx d h, ?_⟩
    rw [subcalls.eq_def]
    simp [h]
  · intro env e ctx D hD
    exact nestArr_hasTrunc env e D 0 ctx (by omega)

/-- Witness for claim C3 at a concrete depth-exceeded render and a nest of
depth 2 with maximum 1. -/
theorem claimC3_witness :
    (renderValueSt (sampleEnv 1) .nil (.str "x") false .root 2 =
        NodeList.nil ++ NodeList.one (.text "...") ∧
      subcalls (sampleEnv 1) (.str "x") false .root 2 = []) ∧
    NodeList.hasTrunc (renderValueSt (sampleEnv 1) .nil (nestArr 2) false .root 0) = true :=
  ⟨claimC3.1 (sampleEnv 1) .nil (.str "x") false .root 2 (by decide),
   claimC3.2 (sampleEnv 1) false .root 2 (by decide)⟩

/-- Claim C4: an Object whose runtime representation carries a nonempty
type name other than "Object" renders as exactly the angle-bracketed type
name, with zero recursive calls into its fields. -/
theorem claimC4 (env : RenderEnv) (c : NodeList) (n : String) (fs : FieldList)
    (e : Bool) (ctx : ValueRenderContext) (d : Nat)
    (hd : d ≤ env.settings.maxRecursiveRenderDepth) (h1 : n ≠ "") (h2 : n ≠ "Object") :
    renderValueSt env c (.obj (some n) fs) e ctx d =
      c ++ NodeList.one (.text ("<" ++ n ++ ">")) ∧
    subcalls env (.obj (some n) fs) e ctx d = [] := by
  have hn : ¬ d > env.settings.maxRecursiveRenderDepth := by omega
  have hguard : ctorGuard (some n) = true := by simp [ctorGuard, h1, h2]
  constructor
  · rw [renderValueSt.eq_def]; simp [hn, hguard]
  · rw [subcalls.eq_def]; simp [hn, hguard]

/-- Witness for claim C4 at a concrete foreign object. -/
theorem claimC4_witness :
    renderValueSt (sampleEnv 3) .nil (.obj (some "DataArray") (.cons "k" .null .nil))
        false .root 0 =
      NodeList.nil ++ NodeList.one (.text ("<" ++ "DataArray" ++ ">")) ∧
    subcalls (sampleEnv 3) (.obj (some "DataArray") (.cons "k" .null .nil)) false .root 0 = [] :=
  claimC4 (sampleEnv 3) .nil "DataArray" (.cons "k" .null .nil) false .root 0
    (by decide) (by decide) (by decide)

/-- Claim C5: rendered output is independent of leaf-render suspension
durations and of the starting instant (every suspension is awaited before
the next sibling starts), and array siblings appear in the output container
in input order, in expand-list mode (one li per element, in order) and in
inline mode (comma-joined, in order). -/
theorem claimC5 :
    (∀ (env : RenderEnv) (dur : String → Nat) (c : NodeList) (f : Lit) (e : Bool)
      (ctx : ValueRenderContext) (d t : Nat),
      (renderValueT env dur c f e ctx d t).1 = renderValueSt env c f e ctx d) ∧
    (∀ (env : RenderEnv) (xs : LitList) (ctx : ValueRenderContext) (d : Nat),
      d ≤ env.settings.maxRecursiveRenderDepth →
      renderValueSt env .nil (.array xs) true ctx d =
        NodeList.one (.elem "ul"
          ["dataview", "dataview-ul",
            if ctx = ValueRenderContext.list then "dataview-result-list-ul"
            else "dataview-result-list-root-ul"]
          (NodeList.ofList (xs.toList.map (fun x =>
            Node.elem "li" ["dataview-result-list-li"]
              (renderValueSt env .nil x true .list (d + 1))))))) ∧
    (∀ (env : RenderEnv) (y : Lit) (ys : LitList) (ctx : ValueRenderContext) (d : Nat),
      d ≤ env.settings.maxRecursiveRenderDepth →
      renderValueSt env .nil (.array (.cons y ys)) false ctx d =
        NodeList.one (.elem "span" ["dataview", "dataview-result-list-span"]
          (commaJoin (fun x => renderValueSt env .nil x false .list (d + 1))
            (y :: ys.toList)))) := by
  refine ⟨renderValueT_fst, ?_, ?_⟩
  · intro env xs ctx d h
    have hn : ¬ d > env.settings.maxRecursiveRenderDepth := by omega
    rw [renderValueSt.eq_def]
    simp only [if_neg hn, if_true]
    rw [renderArrayItems_eq env .nil xs true d]
    simp
  · intro env y ys ctx d h
    have hn : ¬ d > env.settings.maxRecursiveRenderDepth := by omega
    rw [renderValueSt.eq_def]
    simp only [if_neg hn, Bool.false_eq_true, if_false]
    rw [renderArrayInline_true_eq env .nil (.cons y ys) false d]
    simp [LitList.toList]

/-- Witness for claim C5 at concrete inputs. -/
theorem claimC5_witness :
    (renderValueT (sampleEnv 3) (fun s => s.length) .nil (.str "ab") false .root 0 9).1 =
      renderValueSt (sampleEnv 3) .nil (.str "ab") false .root 0 ∧
    renderValueSt (sampleEnv 3) .nil (.array (.cons .null .nil)) true .root 0 =
      NodeList.one (.elem "ul" ["dataview", "dataview-ul", "dataview-result-list-root-ul"]
        (NodeList.one (.elem "li" ["dataview-result-list-li"]
          (renderValueSt (sampleEnv 3) .nil .null true .list 1)))) ∧
    renderValueSt (sampleEnv 3) .nil (.array (.cons .null .nil)) false .root 0 =
      NodeList.one (.elem "span" ["dataview", "dataview-result-list-span"]
        (renderValueSt (sampleEnv 3) .nil .null false .list 1)) :=
  ⟨claimC5.1 (sampleEnv 3) (fun s => s.length) .nil (.str "ab") false .root 0 9,
   (claimC5.2.1 (sampleEnv 3) (.cons .null .nil) .root 0 (by decide)).trans (by decide),
   (claimC5.2.2 (sampleEnv 3) .null .nil .root 0 (by decide)).trans (by decide)⟩

/-- Claim C6, counterexample: a wrapper whose single element child is a
span containing a paragraph. The claim as stated leaves the content
unchanged (the child is not a wrapping block element), but the querySelector
step of the code finds the nested paragraph, relocates its children, and then
fails removing it (removeChild throws), so the result is not the unchanged
content. -/
theorem claimC6_counterexample :
    renderCompactStep (NodeList.one (.elem "span" []
        (NodeList.one (.elem "p" [] (NodeList.one (.text "x")))))) = none ∧
    renderCompactStep (NodeList.one (.elem "span" []
        (NodeList.one (.elem "p" [] (NodeList.one (.text "x")))))) ≠
      some (NodeList.one (.elem "span" []
        (NodeList.one (.elem "p" [] (NodeList.one (.text "x")))))) :=
  ⟨rfl, by decide⟩

/-- Claim C6, amended: after the external renderer completes, if the
wrapper has exactly one element child and the first paragraph descendant is
a direct child, that paragraph is removed and its children appended to the
wrapper; if no paragraph descendant exists or the element-child count is
not one, the content is unchanged; but if the only element child is not
itself the paragraph (the first paragraph descendant lies deeper), the code
relocates the children of that paragraph and then fails on removal. -/
theorem claimC6_amended :
    (∀ (kids : NodeList) (i : Nat) (cls : List String) (ch : NodeList),
      kids.elemCount = 1 → NodeList.findPFrom kids 0 = some [i] →
      kids.get? i = some (.elem "p" cls ch) →
      renderCompactStep kids = some (kids.eraseIdx i ++ ch)) ∧
    (∀ kids : NodeList, NodeList.findPFrom kids 0 = none →
      renderCompactStep kids = some kids) ∧
    (∀ kids : NodeList, kids.elemCount ≠ 1 → renderCompactStep kids = some kids) ∧
    (∀ (kids : NodeList) (i j : Nat) (p : List Nat),
      kids.elemCount = 1 → NodeList.findPFrom kids 0 = some (i :: j :: p) →
      renderCompactStep kids = none) :=
  ⟨renderCompactStep_direct_p, renderCompactStep_no_p,
   renderCompactStep_count_ne_one, renderCompactStep_nested_p⟩

/-- Witness for the amended theorem of claim C6: unwrapping a single direct
paragraph child. -/
theorem claimC6_witness :
    renderCompactStep (NodeList.one (.elem "p" [] (NodeList.one (.text "hi")))) =
      some ((NodeList.one (.elem "p" [] (NodeList.one (.text "hi")))).eraseIdx 0 ++
        NodeList.one (.text "hi")) :=
  claimC6_amended.1 (NodeList.one (.elem "p" [] (NodeList.one (.text "hi")))) 0 []
    (NodeList.one (.text "hi")) (by decide) (by decide) (by decide)

/-- Claim C7: for every input message the worker entry point posts exactly
one output message { path, result } whose path equals the input path and
whose result is the transferable encoding of the output of the parse routine. -/
theorem claimC7 : ∀ (V M E : Type) (parse : String → String → M → Except String V)
    (transferable : ParseOutcome V → E) (evt : ImportJob M),
    onmessage parse transferable evt =
      [{ path := evt.path,
         result := transferable (runImport parse evt.path evt.contents evt.metadata) }] ∧
    ∀ m ∈ onmessage parse transferable evt,
      m.path = evt.path ∧
      m.result = transferable (runImport parse evt.path evt.contents evt.metadata) := by
  intro V M E parse tr evt
  refine ⟨rfl, ?_⟩
  intro m hm
  simp only [onmessage, List.mem_singleton] at hm
  subst hm
  exact ⟨rfl, rfl⟩

/-- Witness for claim C7 at a concrete successful parse. -/
theorem claimC7_witness :
    ({ path := "x.md", result := ParseOutcome.success 7 } : ImportResult (ParseOutcome Nat)).path
        = "x.md" ∧
    ({ path := "x.md", result := ParseOutcome.success 7 } : ImportResult (ParseOutcome Nat)).result
        = ParseOutcome.success 7 :=
  (claimC7 Nat Nat (ParseOutcome Nat) (fun _ _ _ => Except.ok 7) id
      { path := "x.md", contents := "c", metadata := 5 }).2
    { path := "x.md", result := ParseOutcome.success 7 } (by decide)

/-- Claim C8: renderValue is total over the value model: every invocation
appends exactly one node to the supplied container (so always some output,
never an error), and a value matching no known variant renders as the
diagnostic dump "Unrecognized: " followed by its serialized form. -/
theorem claimC8 :
    (∀ (env : RenderEnv) (c : NodeList) (f : Lit) (e : Bool) (ctx : ValueRenderContext)
      (d : Nat), (renderValueSt env c f e ctx d).length = c.length + 1) ∧
    (∀ (env : RenderEnv) (c : NodeList) (s : String) (e : Bool) (ctx : ValueRenderContext)
      (d : Nat), d ≤ env.settings.maxRecursiveRenderDepth →
      renderValueSt env c (.unknown s) e ctx d =
        c ++ NodeList.one (.text ("Unrecognized: " ++ s))) := by
  constructor
  · intro env c f e ctx d
    by_cases h : d > env.settings.maxRecursiveRenderDepth
    · rw [renderValueSt_guard env c f e ctx d h]; simp
    · rw [renderValueSt.eq_def]
      simp only [if_neg h]
      cases f <;> try simp
      next xs => cases e <;> cases xs <;> simp
      next ctor fs => by_cases hg : ctorGuard ctor <;> cases e <;> cases fs <;> simp [hg]
  · intro env c s e ctx d h
    have hn : ¬ d > env.settings.maxRecursiveRenderDepth := by omega
    rw [renderValueSt.eq_def]
    simp [hn]

/-- Witness for claim C8 at a concrete unrecognized value. -/
theorem claimC8_witness :
    renderValueSt (sampleEnv 3) .nil (.unknown "0") false .root 0 =
      NodeList.nil ++ NodeList.one (.text ("Unrecognized: " ++ "0")) :=
  claimC8.2 (sampleEnv 3) .nil "0" false .root 0 (by decide)

/-- Claim C9: the renderer never mutates pre-existing content (nor the
value, which it only reads): a render into a container yields the prior
contents unchanged followed by the appended output, and the inline loops
likewise only append to their accumulating span. -/
theorem claimC9 :
    (∀ (env : RenderEnv) (c : NodeList) (f : Lit) (e : Bool) (ctx : ValueRenderContext)
      (d : Nat), renderValueSt env c f e ctx d = c ++ renderValueSt env .nil f e ctx d) ∧
    (∀ (env : RenderEnv) (acc : NodeList) (first : Bool) (xs : LitList) (e : Bool) (d : Nat),
      renderArrayInline env acc first xs e d = acc ++ renderArrayInline env .nil first xs e d) ∧
    (∀ (env : RenderEnv) (acc : NodeList) (first : Bool) (fs : FieldList) (e : Bool) (d : Nat),
      renderObjInline env acc first fs e d = acc ++ renderObjInline env .nil first fs e d) :=
  ⟨renderValueSt_frame, renderArrayInline_frame, renderObjInline_frame⟩

/-- The element values over which renderValue recurses, per branch. -/
def subvals (env : RenderEnv) (field : Lit) (e : Bool) (d : Nat) : List Lit :=
  if d > env.settings.maxRecursiveRenderDepth then []
  else
    match field with
    | .array xs =>
      if e then xs.toList
      else
        match xs with
        | .nil => []
        | .cons y ys => (LitList.cons y ys).toList
    | .obj ctor fields =>
      if ctorGuard ctor then []
      else if e then fields.vals
      else
        match fields with
        | .nil => []
        | .cons k v fs => (FieldList.cons k v fs).vals
    | _ => []

/-- Every recursive call site tags its argument with context "list" and depth + 1. -/
theorem subcalls_eq_map (env : RenderEnv) (f : Lit) (e : Bool) (ctx : ValueRenderContext)
    (d : Nat) :
    subcalls env f e ctx d =
      (subvals env f e d).map (fun x => (x, e, ValueRenderContext.list, d + 1)) := by
  rw [subcalls.eq_def, subvals.eq_def]
  by_cases h : d > env.settings.maxRecursiveRenderDepth
  · simp [h]
  · simp only [if_neg h]
    cases f <;> try simp
    next xs => cases e <;> cases xs <;> simp
    next ctor fs => by_cases hg : ctorGuard ctor <;> cases e <;> cases fs <;> simp [hg]

/-- Claim C10: every direct recursive renderValue call, in the array and
object branches and in both modes, passes display context "list" and depth
incremented by one. -/
theorem claimC10 : ∀ (env : RenderEnv) (f : Lit) (e : Bool) (ctx : ValueRenderContext)
    (d : Nat) (call : Lit × Bool × ValueRenderContext × Nat),
    call ∈ subcalls env f e ctx d →
    call.2.2.1 = ValueRenderContext.list ∧ call.2.2.2 = d + 1 := by
  intro env f e ctx d call hc
  rw [subcalls_eq_map env f e ctx d] at hc
  simp only [List.mem_map] at hc
  obtain ⟨x, _, rfl⟩ := hc
  exact ⟨rfl, rfl⟩

/-- Witness for claim C10 at a concrete nested render. -/
theorem claimC10_witness :
    (Lit.null, true, ValueRenderContext.list, 1) ∈
      subcalls (sampleEnv 3) (.array (.cons .null .nil)) true .root 0 ∧
    (Lit.null, true, ValueRenderContext.list, (1 : Nat)).2.2.1 = ValueRenderContext.list ∧
    (Lit.null, true, ValueRenderContext.list, (1 : Nat)).2.2.2 = 0 + 1 :=
  ⟨by decide,
   claimC10 (sampleEnv 3) (.array (.cons .null .nil)) true .root 0
     (Lit.null, true, ValueRenderContext.list, 1) (by decide)⟩
